import Mathlib

/-!
Verification of the client-side data presentation engine of the KKMST
record-keeping application: the time-bounded cache (`cache.js`), the
debounced voucher search layer (`VoucherManager`), and the virtual
scrolling renderer (`VirtualScrollingManager.js`).

The JavaScript source is shallowly embedded: every class becomes a state
structure, every method a function from state (plus explicit inputs such
as the current clock value `Date.now()`) to state.  JS `Map`s become
insertion-ordered association lists, `localStorage` becomes an explicit
field of the cache state, and timer/DOM events become explicit event
values processed by a step function.
-/

/-- A JavaScript value, restricted to the shapes that flow through the
cache and the voucher records.  Numbers are modelled as integers (the
values relevant to the claims are integral).  `truthy` mirrors JS
truthiness, which `cacheUtils.getOrFetch` relies on via `if (cached)`. -/
inductive JSVal where
  | nullV : JSVal
  | boolV : Bool → JSVal
  | numV : Int → JSVal
  | strV : String → JSVal
deriving DecidableEq, Repr

/-- JS truthiness: `null`, `false`, `0` and `""` are falsy. -/
def truthy : JSVal → Bool
  | .nullV => false
  | .boolV b => b
  | .numV n => n != 0
  | .strV s => s != ""

/-- The JS `.toString()` conversion on the modelled values. -/
def jsToString : JSVal → String
  | .nullV => "null"
  | .boolV b => if b then "true" else "false"
  | .numV n => toString n
  | .strV s => s

/-! ### Insertion-ordered association lists (JS `Map` semantics)

`Map.set` overwrites in place when the key exists (keeping the original
position) and appends otherwise; `Map.delete` removes the entry;
iteration order is insertion order. -/

/-- Lookup, first matching entry. -/
def alGet {α : Type} : List (String × α) → String → Option α
  | [], _ => none
  | p :: rest, k => if p.1 == k then some p.2 else alGet rest k

/-- `Map.set`: overwrite the first entry with this key in place, or
append a fresh entry at the end. -/
def alSet {α : Type} : List (String × α) → String → α → List (String × α)
  | [], k, v => [(k, v)]
  | p :: rest, k, v => if p.1 == k then (k, v) :: rest else p :: alSet rest k v

/-- `Map.delete`: drop the entry with this key. -/
def alDelete {α : Type} (l : List (String × α)) (k : String) : List (String × α) :=
  l.filter (fun p => p.1 != k)

/-- The keys of an association list, in insertion order. -/
def alKeys {α : Type} (l : List (String × α)) : List String :=
  l.map Prod.fst

theorem alGet_alSet_self {α : Type} (l : List (String × α)) (k : String) (v : α) :
    alGet (alSet l k v) k = some v := by
  induction l with
  | nil => simp [alSet, alGet]
  | cons p rest ih =>
    by_cases h : p.1 = k
    · simp [alSet, alGet, h]
    · simp only [alSet, alGet, beq_iff_eq, h, if_false, if_neg h]
      exact ih

theorem alGet_alSet_ne {α : Type} (l : List (String × α)) (k k' : String) (v : α)
    (h : k' ≠ k) : alGet (alSet l k v) k' = alGet l k' := by
  have hkk : ¬(k = k') := fun hh => h hh.symm
  induction l with
  | nil =>
    simp only [alSet, alGet, beq_iff_eq]
    rw [if_neg hkk]
  | cons p rest ih =>
    by_cases hp : p.1 = k
    · simp only [alSet, beq_iff_eq, if_pos hp, alGet]
      rw [if_neg hkk, if_neg (by rw [hp]; exact hkk)]
    · simp only [alSet, beq_iff_eq, if_neg hp, alGet]
      by_cases hpk : p.1 = k'
      · rw [if_pos hpk, if_pos hpk]
      · rw [if_neg hpk, if_neg hpk]
        exact ih

theorem alGet_filterKey {α : Type} (P : String → Bool) (l : List (String × α)) (k : String) :
    alGet (l.filter (fun p => P p.1)) k = if P k then alGet l k else none := by
  induction l with
  | nil => simp [alGet]
  | cons p rest ih =>
    by_cases hP : P p.1
    · by_cases hk : p.1 = k
      · subst hk
        simp [List.filter_cons, hP, alGet]
      · simp [List.filter_cons, hP, alGet, hk, ih]
    · by_cases hk : p.1 = k
      · subst hk
        simp [List.filter_cons, hP, alGet, ih]
      · simp [List.filter_cons, hP, alGet, hk, ih]

theorem mem_of_alGet_eq_some {α : Type} {l : List (String × α)} {k : String} {v : α}
    (h : alGet l k = some v) : (k, v) ∈ l := by
  induction l with
  | nil => simp [alGet] at h
  | cons p rest ih =>
    by_cases hk : p.1 = k
    · simp only [alGet, beq_iff_eq, if_pos hk, Option.some.injEq] at h
      have hp : (k, v) = p := by
        cases p
        simp_all
      rw [hp]
      exact List.mem_cons_self _ _
    · simp only [alGet, beq_iff_eq, if_neg hk] at h
      exact List.mem_cons_of_mem _ (ih h)

theorem alGet_of_mem_nodup {α : Type} {l : List (String × α)} {k : String} {v : α}
    (hnd : (alKeys l).Nodup) (h : (k, v) ∈ l) : alGet l k = some v := by
  induction l with
  | nil => simp at h
  | cons p rest ih =>
    rcases List.mem_cons.mp h with h1 | h1
    · rw [← h1]
      simp [alGet]
    · have hnd' : p.1 ∉ alKeys rest ∧ (alKeys rest).Nodup := by
        simpa [alKeys, List.nodup_cons] using hnd
      have hk : p.1 ≠ k := by
        intro he
        apply hnd'.1
        rw [he]
        exact List.mem_map_of_mem Prod.fst h1
      simp only [alGet, beq_iff_eq, if_neg hk]
      exact ih hnd'.2 h1

theorem alKeys_filterKey {α : Type} (P : String → Bool) (l : List (String × α)) :
    alKeys (l.filter (fun p => P p.1)) = (alKeys l).filter P := by
  induction l with
  | nil => rfl
  | cons p rest ih =>
    simp only [alKeys] at ih ⊢
    by_cases hP : P p.1
    · simp [List.filter_cons, hP, ih]
    · simp [List.filter_cons, hP, ih]

theorem alKeys_alSet {α : Type} (l : List (String × α)) (k : String) (v : α) :
    alKeys (alSet l k v) = if k ∈ alKeys l then alKeys l else alKeys l ++ [k] := by
  induction l with
  | nil => simp [alSet, alKeys]
  | cons p rest ih =>
    by_cases hp : p.1 = k
    · simp [alSet, alKeys, hp]
    · have hne : k ≠ p.1 := fun hh => hp hh.symm
      simp only [alKeys] at ih ⊢
      by_cases hm : k ∈ List.map Prod.fst rest
      · simp [alSet, hp, hm, hne, ih]
      · simp [alSet, hp, hm, hne, ih]

/-! ### Cache Store (`src/Y/js/cache.js`)

`CacheManager` holds an in-memory `Map` of payloads, a parallel `Map` of
stored-at timestamps, and mirrors entries into `localStorage` (modelled as
the `storage` field; the `cache_` key prefix is left implicit since the
model holds only this cache's entries).  The clock value `Date.now()` is
passed explicitly as `now`. -/

/-- `appConfig.cacheExpiry` from `config.js`: 5 minutes in milliseconds. -/
def cacheExpiry : Nat := 5 * 60 * 1000

structure CacheState where
  cache : List (String × JSVal)
  cacheTimestamps : List (String × Nat)
  storage : List (String × (JSVal × Nat))
  maxCacheSize : Nat
deriving DecidableEq, Repr

/-- The constructor state: empty maps, `maxCacheSize` as configured
(the source hard-codes 50; the spec scenarios also use other caps, so the
cap is a parameter of the initial state). -/
def initState (maxSize : Nat) : CacheState :=
  { cache := [], cacheTimestamps := [], storage := [], maxCacheSize := maxSize }

/-- `CacheManager.delete`: removes the in-memory entry, its timestamp and
the `localStorage` mirror. -/
def CacheManager.delete (st : CacheState) (key : String) : CacheState :=
  { st with cache := alDelete st.cache key,
            cacheTimestamps := alDelete st.cacheTimestamps key,
            storage := alDelete st.storage key }

/-- Ordering used by `cleanup`'s `sort((a, b) => a[1] - b[1])`: ascending
stored-at timestamp.  JS `Array.prototype.sort` is stable, which
`List.insertionSort` models. -/
def byTimestamp (a b : String × Nat) : Prop := a.2 ≤ b.2

instance : DecidableRel byTimestamp := fun a b => Nat.decLe a.2 b.2

instance : IsTotal (String × Nat) byTimestamp := ⟨fun a b => Nat.le_total a.2 b.2⟩

instance : IsTrans (String × Nat) byTimestamp := ⟨fun _ _ _ => Nat.le_trans⟩

/-- First stage of `CacheManager.cleanup`: collect the keys of every
expired entry and delete them one by one. -/
def CacheManager.removeExpired (st : CacheState) (now : Nat) : CacheState :=
  (alKeys (st.cacheTimestamps.filter (fun p => now - p.2 > cacheExpiry))).foldl
    CacheManager.delete st

/-- Second stage of `CacheManager.cleanup`: if the cache is still over the
cap, sort the timestamp entries ascending and delete the oldest ones until
the size equals the cap. -/
def CacheManager.evictOldest (st : CacheState) : CacheState :=
  if st.cache.length > st.maxCacheSize then
    (alKeys ((List.insertionSort byTimestamp st.cacheTimestamps).take
      (st.cache.length - st.maxCacheSize))).foldl CacheManager.delete st
  else st

/-- `CacheManager.cleanup`: delete every expired entry, then, if the cache
still exceeds the cap, delete the oldest-stored entries until the size
equals the cap. -/
def CacheManager.cleanup (st : CacheState) (now : Nat) : CacheState :=
  CacheManager.evictOldest (CacheManager.removeExpired st now)

/-- `CacheManager.saveToStorage`: mirrors the entry to `localStorage`.
The `try`/`catch` around the write swallows storage failures; the model
covers the successful write (a failed write leaves `storage` unchanged and
affects none of the claims under verification). -/
def CacheManager.saveToStorage (st : CacheState) (key : String) (data : JSVal)
    (timestamp : Nat) : CacheState :=
  { st with storage := alSet st.storage key (data, timestamp) }

/-- `CacheManager.set`: store the payload and its stored-at timestamp, run
`cleanup` if the cap is exceeded, then mirror to `localStorage`.  The
third JS parameter `expiry` is accepted but never read by the source;
the model keeps it to mirror the signature. -/
def CacheManager.set (st : CacheState) (key : String) (data : JSVal)
    (expiry : Nat) (now : Nat) : CacheState :=
  let st1 := { st with cache := alSet st.cache key data,
                       cacheTimestamps := alSet st.cacheTimestamps key now }
  let st2 := if st1.cache.length > st1.maxCacheSize then CacheManager.cleanup st1 now else st1
  CacheManager.saveToStorage st2 key data now

/-- `CacheManager.loadFromStorage`: hydrate from the `localStorage`
mirror; an expired stored entry is deleted and treated as a miss, a valid
one repopulates both in-memory maps. -/
def CacheManager.loadFromStorage (st : CacheState) (key : String) (now : Nat) :
    CacheState × Option JSVal :=
  match alGet st.storage key with
  | none => (st, none)
  | some (data, timestamp) =>
      if now - timestamp > cacheExpiry then
        ({ st with storage := alDelete st.storage key }, none)
      else
        ({ st with cache := alSet st.cache key data,
                   cacheTimestamps := alSet st.cacheTimestamps key timestamp }, some data)

/-- `CacheManager.get`: a falsy timestamp — absent, or the (in practice
unreachable) clock value 0, since the source tests `if (!timestamp)` —
falls back to the `localStorage` mirror; an expired in-memory entry is
deleted and the call returns `null`; otherwise the payload is returned.
Validity is checked against the global `appConfig.cacheExpiry`, not a
per-entry value. -/
def CacheManager.get (st : CacheState) (key : String) (now : Nat) :
    CacheState × Option JSVal :=
  match alGet st.cacheTimestamps key with
  | none => CacheManager.loadFromStorage st key now
  | some timestamp =>
      if timestamp = 0 then CacheManager.loadFromStorage st key now
      else if now - timestamp > cacheExpiry then (CacheManager.delete st key, none)
      else (st, alGet st.cache key)

/-- `cacheUtils.getOrFetch`: return the cached value when `if (cached)`
holds (a truthy value from `get`), otherwise run the loader once; a
successful result is stored via `set` and returned, a failure is
re-thrown.  The loader is modelled by its resolved outcome `fetchResult`;
the third component counts how many times the loader ran. -/
def cacheUtils.getOrFetch (st : CacheState) (key : String)
    (fetchResult : Except Unit JSVal) (expiry : Nat) (now : Nat) :
    CacheState × Except Unit JSVal × Nat :=
  let res := CacheManager.get st key now
  match res.2 with
  | some v =>
      if truthy v then (res.1, Except.ok v, 0)
      else
        match fetchResult with
        | Except.ok data => (CacheManager.set res.1 key data expiry now, Except.ok data, 1)
        | Except.error e => (res.1, Except.error e, 1)
  | none =>
      match fetchResult with
      | Except.ok data => (CacheManager.set res.1 key data expiry now, Except.ok data, 1)
      | Except.error e => (res.1, Except.error e, 1)

/-- Well-formedness maintained by every `CacheManager` state: the payload
map and the timestamp map hold exactly the same keys, without duplicates
(JS `Map` keys are unique; the two maps are updated in lockstep). -/
def WF (st : CacheState) : Prop :=
  alKeys st.cache = alKeys st.cacheTimestamps ∧ (alKeys st.cache).Nodup

instance (st : CacheState) : Decidable (WF st) := by
  unfold WF
  infer_instance

/-- One recorded `set(key, data, expiry)` call together with the
`Date.now()` value observed during the call. -/
structure SetOp where
  key : String
  data : JSVal
  expiry : Nat
  now : Nat
deriving DecidableEq, Repr

/-- A sequence of `set` calls applied in order. -/
def runSets (st : CacheState) (ops : List SetOp) : CacheState :=
  ops.foldl (fun s o => CacheManager.set s o.key o.data o.expiry o.now) st

/-! ### Cache lemmas -/

/-- A key survives a batch of deletions iff it is not in the batch. -/
def notRemoved (ks : List String) (x : String) : Bool := !(ks.contains x)

theorem foldl_delete_spec (ks : List String) (st : CacheState) :
    (ks.foldl CacheManager.delete st).cache
        = st.cache.filter (fun p => notRemoved ks p.1)
    ∧ (ks.foldl CacheManager.delete st).cacheTimestamps
        = st.cacheTimestamps.filter (fun p => notRemoved ks p.1)
    ∧ (ks.foldl CacheManager.delete st).storage
        = st.storage.filter (fun p => notRemoved ks p.1)
    ∧ (ks.foldl CacheManager.delete st).maxCacheSize = st.maxCacheSize := by
  induction ks generalizing st with
  | nil => simp [notRemoved]
  | cons k ks ih =>
    have hstep : ∀ (β : Type) (l : List (String × β)),
        (alDelete l k).filter (fun p => notRemoved ks p.1)
          = l.filter (fun p => notRemoved (k :: ks) p.1) := by
      intro β l
      rw [alDelete, List.filter_filter]
      apply List.filter_congr
      intro p _
      by_cases hk : p.1 = k
      · simp [notRemoved, hk]
      · simp [notRemoved, hk, bne_iff_ne, Ne.symm]
    rcases ih (CacheManager.delete st k) with ⟨h1, h2, h3, h4⟩
    refine ⟨?_, ?_, ?_, ?_⟩
    · rw [List.foldl_cons, h1]
      exact hstep _ st.cache
    · rw [List.foldl_cons, h2]
      exact hstep _ st.cacheTimestamps
    · rw [List.foldl_cons, h3]
      exact hstep _ st.storage
    · rw [List.foldl_cons, h4]
      rfl

/-- The key-level survival predicate of the expired-entry sweep: a key
survives iff it is not among the keys collected as expired. -/
def expiredSurvives (st : CacheState) (now : Nat) (x : String) : Bool :=
  !((alKeys (st.cacheTimestamps.filter (fun q => now - q.2 > cacheExpiry))).contains x)

theorem removeExpired_spec (st : CacheState) (now : Nat) :
    (CacheManager.removeExpired st now).cache
        = st.cache.filter (fun p => expiredSurvives st now p.1)
    ∧ (CacheManager.removeExpired st now).cacheTimestamps
        = st.cacheTimestamps.filter (fun p => expiredSurvives st now p.1)
    ∧ (CacheManager.removeExpired st now).storage
        = st.storage.filter (fun p => expiredSurvives st now p.1)
    ∧ (CacheManager.removeExpired st now).maxCacheSize = st.maxCacheSize :=
  foldl_delete_spec _ st

theorem evictOldest_filter (st : CacheState) :
    ∃ P : String → Bool,
      (CacheManager.evictOldest st).cache = st.cache.filter (fun p => P p.1)
      ∧ (CacheManager.evictOldest st).cacheTimestamps
          = st.cacheTimestamps.filter (fun p => P p.1)
      ∧ (CacheManager.evictOldest st).storage = st.storage.filter (fun p => P p.1)
      ∧ (CacheManager.evictOldest st).maxCacheSize = st.maxCacheSize := by
  by_cases hbig : st.cache.length > st.maxCacheSize
  · refine ⟨fun x => !((alKeys ((List.insertionSort byTimestamp st.cacheTimestamps).take
        (st.cache.length - st.maxCacheSize))).contains x), ?_⟩
    have h := foldl_delete_spec
      (alKeys ((List.insertionSort byTimestamp st.cacheTimestamps).take
        (st.cache.length - st.maxCacheSize))) st
    rw [CacheManager.evictOldest]
    simp only [if_pos hbig]
    exact h
  · refine ⟨fun _ => true, ?_⟩
    rw [CacheManager.evictOldest]
    simp [if_neg hbig]

theorem cleanup_filter (st : CacheState) (now : Nat) :
    ∃ P : String → Bool,
      (CacheManager.cleanup st now).cache = st.cache.filter (fun p => P p.1)
      ∧ (CacheManager.cleanup st now).cacheTimestamps
          = st.cacheTimestamps.filter (fun p => P p.1)
      ∧ (CacheManager.cleanup st now).storage = st.storage.filter (fun p => P p.1)
      ∧ (CacheManager.cleanup st now).maxCacheSize = st.maxCacheSize := by
  rcases removeExpired_spec st now with ⟨h1, h2, h3, h4⟩
  rcases evictOldest_filter (CacheManager.removeExpired st now) with ⟨P, g1, g2, g3, g4⟩
  refine ⟨fun x => P x && expiredSurvives st now x, ?_⟩
  rw [CacheManager.cleanup]
  refine ⟨?_, ?_, ?_, ?_⟩
  · rw [g1, h1, List.filter_filter]
  · rw [g2, h2, List.filter_filter]
  · rw [g3, h3, List.filter_filter]
  · rw [g4, h4]

theorem WF_filterKey (st : CacheState) (P : String → Bool)
    (hwf : WF st) :
    WF { st with cache := st.cache.filter (fun p => P p.1),
                 cacheTimestamps := st.cacheTimestamps.filter (fun p => P p.1) } := by
  rcases hwf with ⟨hkeys, hnd⟩
  constructor
  · simp only [alKeys_filterKey, hkeys]
  · simp only [alKeys_filterKey]
    exact List.Nodup.filter P hnd

theorem WF_cleanup (st : CacheState) (now : Nat) (hwf : WF st) :
    WF (CacheManager.cleanup st now) := by
  rcases cleanup_filter st now with ⟨P, h1, h2, _, _⟩
  rcases hwf with ⟨hkeys, hnd⟩
  constructor
  · rw [h1, h2, alKeys_filterKey, alKeys_filterKey, hkeys]
  · rw [h1, alKeys_filterKey]
    exact List.Nodup.filter P hnd

theorem WF_alSet (st : CacheState) (k : String) (v : JSVal) (t : Nat) (hwf : WF st) :
    WF { st with cache := alSet st.cache k v,
                 cacheTimestamps := alSet st.cacheTimestamps k t } := by
  rcases hwf with ⟨hkeys, hnd⟩
  constructor
  · simp only [alKeys_alSet, hkeys]
  · simp only [alKeys_alSet]
    by_cases hm : k ∈ alKeys st.cache
    · rw [if_pos hm]
      exact hnd
    · rw [if_neg hm]
      simpa [List.nodup_append] using ⟨hnd, hm⟩

theorem WF_set (st : CacheState) (k : String) (v : JSVal) (e t : Nat) (hwf : WF st) :
    WF (CacheManager.set st k v e t) := by
  rw [CacheManager.set]
  have h1 := WF_alSet st k v t hwf
  set st1 : CacheState := { st with cache := alSet st.cache k v,
                                    cacheTimestamps := alSet st.cacheTimestamps k t }
  by_cases hbig : st1.cache.length > st1.maxCacheSize
  · simp only [if_pos hbig]
    exact WF_cleanup st1 t h1
  · simp only [if_neg hbig]
    exact h1

theorem filter_ne_key_length {α : Type} {l : List (String × α)} {r : String}
    (hnd : (alKeys l).Nodup) (hmem : r ∈ alKeys l) :
    (l.filter (fun p => p.1 != r)).length = l.length - 1 := by
  induction l with
  | nil => simp [alKeys] at hmem
  | cons p rest ih =>
    have hnd' : p.1 ∉ alKeys rest ∧ (alKeys rest).Nodup := by
      simpa [alKeys, List.nodup_cons] using hnd
    by_cases hp : p.1 = r
    · have hrest : rest.filter (fun q => q.1 != r) = rest := by
        rw [List.filter_eq_self]
        intro q hq
        simp only [bne_iff_ne, ne_eq, decide_not, decide_eq_true_eq]
        intro he
        apply hnd'.1
        rw [hp, ← he]
        exact List.mem_map_of_mem Prod.fst hq
      simp [List.filter_cons, hp, hrest]
    · have hmem' : r ∈ alKeys rest := by
        rcases (by simpa [alKeys] using hmem : r = p.1 ∨ r ∈ List.map Prod.fst rest) with h | h
        · exact absurd h.symm hp
        · exact h
      have hpos : 0 < rest.length := by
        have h1 : 0 < (alKeys rest).length := List.length_pos_of_mem hmem'
        simpa [alKeys] using h1
      have hrec := ih hnd'.2 hmem'
      have hfilter : (p :: rest).filter (fun q => q.1 != r)
          = p :: rest.filter (fun q => q.1 != r) := by
        simp [List.filter_cons, bne_iff_ne, hp]
      rw [hfilter, List.length_cons, List.length_cons, hrec]
      omega

theorem filter_not_contains_length {α : Type} (rm : List String) (l : List (String × α))
    (hnd : (alKeys l).Nodup) (hrm : rm.Nodup) (hsub : ∀ x ∈ rm, x ∈ alKeys l) :
    (l.filter (fun p => notRemoved rm p.1)).length = l.length - rm.length := by
  induction rm generalizing l with
  | nil => simp [notRemoved]
  | cons r rs ih =>
    have hcomp : l.filter (fun p => notRemoved (r :: rs) p.1)
        = (l.filter (fun p => p.1 != r)).filter (fun p => notRemoved rs p.1) := by
      rw [List.filter_filter]
      apply List.filter_congr
      intro p _
      by_cases hk : p.1 = r
      · simp [notRemoved, hk]
      · simp [notRemoved, List.contains_cons, hk]
    have hkeys' : alKeys (l.filter (fun p => p.1 != r))
        = (alKeys l).filter (fun x => x != r) := alKeys_filterKey (fun x => x != r) l
    have hnd2 : (alKeys (l.filter (fun p => p.1 != r))).Nodup := by
      rw [hkeys']
      exact hnd.filter _
    have hsub2 : ∀ x ∈ rs, x ∈ alKeys (l.filter (fun p => p.1 != r)) := by
      intro x hx
      rw [hkeys', List.mem_filter]
      refine ⟨hsub x (List.mem_cons_of_mem _ hx), ?_⟩
      have hxr : x ≠ r := by
        intro he
        rw [List.nodup_cons] at hrm
        exact hrm.1 (he ▸ hx)
      simpa [bne_iff_ne] using hxr
    have hlen' := filter_ne_key_length hnd (hsub r (List.mem_cons_self _ _))
    rw [hcomp, ih _ hnd2 (List.Nodup.of_cons hrm) hsub2, hlen', List.length_cons]
    omega

theorem evictOldest_length_le (st : CacheState) (hwf : WF st) :
    (CacheManager.evictOldest st).cache.length ≤ st.maxCacheSize := by
  rcases hwf with ⟨hkeys, hnd⟩
  rw [CacheManager.evictOldest]
  by_cases hbig : st.cache.length > st.maxCacheSize
  · simp only [if_pos hbig]
    have hperm : List.Perm
        (List.map Prod.fst (List.insertionSort byTimestamp st.cacheTimestamps))
        (alKeys st.cacheTimestamps) :=
      (List.perm_insertionSort byTimestamp st.cacheTimestamps).map Prod.fst
    have hndts : (alKeys st.cacheTimestamps).Nodup := hkeys ▸ hnd
    have hndsorted : (List.map Prod.fst
        (List.insertionSort byTimestamp st.cacheTimestamps)).Nodup :=
      (hperm.nodup_iff).mpr hndts
    set j := st.cache.length - st.maxCacheSize with hj
    set sorted := List.insertionSort byTimestamp st.cacheTimestamps with hsorted
    have hrmkeys : alKeys (sorted.take j) = (List.map Prod.fst sorted).take j := by
      rw [alKeys, List.map_take]
    have hrmnd : (alKeys (sorted.take j)).Nodup := by
      rw [hrmkeys]
      exact List.Nodup.sublist (List.take_sublist _ _) hndsorted
    have hrmsub : ∀ x ∈ alKeys (sorted.take j), x ∈ alKeys st.cache := by
      intro x hx
      rw [hrmkeys] at hx
      have hx2 : x ∈ List.map Prod.fst sorted := List.mem_of_mem_take hx
      rw [hkeys]
      exact hperm.mem_iff.mp hx2
    have hlen := filter_not_contains_length (alKeys (sorted.take j)) st.cache hnd hrmnd hrmsub
    have hsortlen : sorted.length = st.cache.length := by
      have h1 : sorted.length = st.cacheTimestamps.length :=
        (List.perm_insertionSort byTimestamp st.cacheTimestamps).length_eq
      have h2 : st.cache.length = st.cacheTimestamps.length := by
        have := congrArg List.length hkeys
        simpa [alKeys] using this
      omega
    have hrmlen : (alKeys (sorted.take j)).length = j := by
      rw [hrmkeys, List.length_take, List.length_map, hsortlen]
      omega
    rcases foldl_delete_spec (alKeys (sorted.take j)) st with ⟨h1, _, _, _⟩
    rw [h1, hlen, hrmlen]
    omega
  · simp only [if_neg hbig]
    omega

theorem WF_removeExpired (st : CacheState) (now : Nat) (hwf : WF st) :
    WF (CacheManager.removeExpired st now) := by
  rcases removeExpired_spec st now with ⟨h1, h2, _, _⟩
  rcases hwf with ⟨hkeys, hnd⟩
  constructor
  · rw [h1, h2, alKeys_filterKey, alKeys_filterKey, hkeys]
  · rw [h1, alKeys_filterKey]
    exact hnd.filter _


theorem removeExpired_ts_lookup (st : CacheState) (now : Nat) (k : String) (ts : Nat)
    (h : alGet (CacheManager.removeExpired st now).cacheTimestamps k = some ts) :
    alGet st.cacheTimestamps k = some ts ∧ now - ts ≤ cacheExpiry := by
  rcases removeExpired_spec st now with ⟨_, h2, _, _⟩
  rw [h2, alGet_filterKey] at h
  by_cases hc : k ∈ alKeys (st.cacheTimestamps.filter (fun q => now - q.2 > cacheExpiry))
  · have hs : expiredSurvives st now k = false := by simp [expiredSurvives, hc]
    rw [hs] at h
    simp at h
  · have hs : expiredSurvives st now k = true := by simp [expiredSurvives, hc]
    rw [hs] at h
    simp only [if_true] at h
    refine ⟨h, ?_⟩
    by_contra hle
    have hexp : now - ts > cacheExpiry := by omega
    apply hc
    have hmem : (k, ts) ∈ st.cacheTimestamps.filter (fun q => now - q.2 > cacheExpiry) := by
      rw [List.mem_filter]
      exact ⟨mem_of_alGet_eq_some h, by simpa using hexp⟩
    exact List.mem_map_of_mem Prod.fst hmem

theorem removeExpired_ts_keep (st : CacheState) (now : Nat) (k : String) (ts : Nat)
    (hwf : WF st) (h : alGet st.cacheTimestamps k = some ts)
    (hvalid : now - ts ≤ cacheExpiry) :
    alGet (CacheManager.removeExpired st now).cacheTimestamps k = some ts := by
  rcases removeExpired_spec st now with ⟨_, h2, _, _⟩
  rw [h2, alGet_filterKey]
  have hndts : (alKeys st.cacheTimestamps).Nodup := hwf.1 ▸ hwf.2
  have hc : k ∉ alKeys (st.cacheTimestamps.filter (fun q => now - q.2 > cacheExpiry)) := by
    intro hmemk
    rcases List.mem_map.mp hmemk with ⟨p, hp, hpk⟩
    rcases List.mem_filter.mp hp with ⟨hpmem, hpexp⟩
    have hts2 : alGet st.cacheTimestamps p.1 = some p.2 := by
      apply alGet_of_mem_nodup hndts
      simpa using hpmem
    rw [hpk, h] at hts2
    have hp2 : ts = p.2 := Option.some.inj hts2
    simp only [decide_eq_true_eq] at hpexp
    omega
  have hs : expiredSurvives st now k = true := by simp [expiredSurvives, hc]
  rw [hs]
  simp only [if_true]
  exact h

theorem evictOldest_ts_lookup (st : CacheState) (k : String) (ts : Nat)
    (h : alGet (CacheManager.evictOldest st).cacheTimestamps k = some ts) :
    alGet st.cacheTimestamps k = some ts := by
  rcases evictOldest_filter st with ⟨P, _, h2, _, _⟩
  rw [h2, alGet_filterKey] at h
  by_cases hP : P k = true
  · rwa [if_pos hP] at h
  · rw [if_neg hP] at h
    exact absurd h (by simp)

theorem evictOldest_oldest_first (st : CacheState) (k1 k2 : String) (ts1 ts2 : Nat)
    (hwf : WF st)
    (h1 : alGet st.cacheTimestamps k1 = some ts1)
    (h2 : alGet st.cacheTimestamps k2 = some ts2)
    (hlt : ts1 < ts2)
    (hgone : alGet (CacheManager.evictOldest st).cacheTimestamps k2 = none) :
    alGet (CacheManager.evictOldest st).cacheTimestamps k1 = none := by
  have hndts : (alKeys st.cacheTimestamps).Nodup := hwf.1 ▸ hwf.2
  rw [CacheManager.evictOldest] at hgone ⊢
  by_cases hbig : st.cache.length > st.maxCacheSize
  · simp only [if_pos hbig] at hgone ⊢
    rcases foldl_delete_spec (alKeys ((List.insertionSort byTimestamp st.cacheTimestamps).take
        (st.cache.length - st.maxCacheSize))) st with ⟨_, g2, _, _⟩
    rw [g2, alGet_filterKey] at hgone ⊢
    set j := st.cache.length - st.maxCacheSize with hj
    set sorted := List.insertionSort byTimestamp st.cacheTimestamps with hsorted
    have hk2 : k2 ∈ alKeys (sorted.take j) := by
      by_contra hk2n
      have : notRemoved (alKeys (sorted.take j)) k2 = true := by
        simp [notRemoved, hk2n]
      rw [if_pos this, h2] at hgone
      exact absurd hgone (by simp)
    have hk1 : k1 ∈ alKeys (sorted.take j) := by
      rcases List.mem_map.mp hk2 with ⟨e, he, hek⟩
      have hesorted : e ∈ sorted := List.mem_of_mem_take he
      have hets : e ∈ st.cacheTimestamps :=
        (List.perm_insertionSort byTimestamp st.cacheTimestamps).subset hesorted
      have hte : alGet st.cacheTimestamps e.1 = some e.2 := by
        apply alGet_of_mem_nodup hndts
        simpa using hets
      rw [hek, h2] at hte
      have he2 : ts2 = e.2 := Option.some.inj hte
      have hmem1 : (k1, ts1) ∈ st.cacheTimestamps := mem_of_alGet_eq_some h1
      have hmem1s : (k1, ts1) ∈ sorted :=
        ((List.perm_insertionSort byTimestamp st.cacheTimestamps).symm).subset hmem1
      have hsplit : (k1, ts1) ∈ sorted.take j ∨ (k1, ts1) ∈ sorted.drop j := by
        rw [← List.mem_append, List.take_append_drop]
        exact hmem1s
      rcases hsplit with hin | hin
      · exact List.mem_map_of_mem Prod.fst hin
      · exfalso
        have hsort : List.Sorted byTimestamp sorted :=
          List.sorted_insertionSort byTimestamp st.cacheTimestamps
        have hrel : byTimestamp e (k1, ts1) :=
          List.Sorted.rel_of_mem_take_of_mem_drop hsort he hin
        rw [byTimestamp] at hrel
        omega
    have : notRemoved (alKeys (sorted.take j)) k1 = false := by
      simp [notRemoved, hk1]
    rw [if_neg (by simp [this])]
  · simp only [if_neg hbig] at hgone
    rw [h2] at hgone
    exact absurd hgone (by simp)

theorem set_max_eq (st : CacheState) (k : String) (v : JSVal) (e t : Nat) :
    (CacheManager.set st k v e t).maxCacheSize = st.maxCacheSize := by
  simp only [CacheManager.set, CacheManager.saveToStorage]
  set st1 : CacheState := { st with cache := alSet st.cache k v, cacheTimestamps := alSet st.cacheTimestamps k t } with hst1
  split
  · rcases cleanup_filter st1 t with ⟨_, _, _, _, h4⟩
    exact h4
  · rfl

theorem set_cache_length_le (st : CacheState) (k : String) (v : JSVal) (e t : Nat)
    (hwf : WF st) :
    (CacheManager.set st k v e t).cache.length ≤ st.maxCacheSize := by
  simp only [CacheManager.set, CacheManager.saveToStorage]
  set st1 : CacheState := { st with cache := alSet st.cache k v, cacheTimestamps := alSet st.cacheTimestamps k t } with hst1
  have hwf1 : WF st1 := WF_alSet st k v t hwf
  split
  · rw [CacheManager.cleanup]
    have hwf2 := WF_removeExpired st1 t hwf1
    have hle := evictOldest_length_le _ hwf2
    rcases removeExpired_spec st1 t with ⟨_, _, _, h4⟩
    rw [h4] at hle
    exact hle
  · next hbig => exact Nat.le_of_not_lt hbig

theorem runSets_spec (ops : List SetOp) :
    ∀ st : CacheState, WF st → st.cache.length ≤ st.maxCacheSize →
      WF (runSets st ops) ∧ (runSets st ops).maxCacheSize = st.maxCacheSize
        ∧ (runSets st ops).cache.length ≤ st.maxCacheSize := by
  induction ops with
  | nil =>
    intro st hwf hle
    exact ⟨hwf, rfl, hle⟩
  | cons o ops ih =>
    intro st hwf hle
    have h1 := WF_set st o.key o.data o.expiry o.now hwf
    have h2 := set_cache_length_le st o.key o.data o.expiry o.now hwf
    have h3 := set_max_eq st o.key o.data o.expiry o.now
    have hrec := ih (CacheManager.set st o.key o.data o.expiry o.now) h1 (by omega)
    refine ⟨hrec.1, hrec.2.1.trans h3, ?_⟩
    have hfin := hrec.2.2
    rw [h3] at hfin
    exact hfin

theorem get_eq_of_ts_some {st : CacheState} {k : String} {now ts : Nat}
    (h : alGet st.cacheTimestamps k = some ts) (hz : ts ≠ 0) :
    CacheManager.get st k now =
      if now - ts > cacheExpiry then (CacheManager.delete st k, none)
      else (st, alGet st.cache k) := by
  simp only [CacheManager.get, h]
  rw [if_neg hz]

theorem get_eq_of_ts_zero {st : CacheState} {k : String} {now : Nat}
    (h : alGet st.cacheTimestamps k = some 0) :
    CacheManager.get st k now = CacheManager.loadFromStorage st k now := by
  simp [CacheManager.get, h]

theorem get_eq_of_ts_none {st : CacheState} {k : String} {now : Nat}
    (h : alGet st.cacheTimestamps k = none) :
    CacheManager.get st k now = CacheManager.loadFromStorage st k now := by
  simp only [CacheManager.get, h]

theorem lfs_eq_of_some {st : CacheState} {k : String} {now : Nat} {v : JSVal} {ts : Nat}
    (h : alGet st.storage k = some (v, ts)) :
    CacheManager.loadFromStorage st k now =
      if now - ts > cacheExpiry then ({ st with storage := alDelete st.storage k }, none)
      else ({ st with cache := alSet st.cache k v, cacheTimestamps := alSet st.cacheTimestamps k ts }, some v) := by
  simp only [CacheManager.loadFromStorage, h]

theorem get_after_set (st : CacheState) (k : String) (v : JSVal) (ttl t now : Nat) :
    (CacheManager.get (CacheManager.set st k v ttl t) k now).2
      = if now - t ≤ cacheExpiry then some v else none := by
  simp only [CacheManager.set]
  set st1 : CacheState := { st with cache := alSet st.cache k v, cacheTimestamps := alSet st.cacheTimestamps k t } with hst1
  set stc : CacheState := if st1.cache.length > st1.maxCacheSize
      then CacheManager.cleanup st1 t else st1 with hstc
  have hcase : (alGet stc.cacheTimestamps k = some t ∧ alGet stc.cache k = some v)
      ∨ alGet stc.cacheTimestamps k = none := by
    rw [hstc]
    by_cases hbig : st1.cache.length > st1.maxCacheSize
    · simp only [if_pos hbig]
      rcases cleanup_filter st1 t with ⟨P, c1, c2, _, _⟩
      rw [c1, c2, alGet_filterKey, alGet_filterKey]
      by_cases hP : P k = true
      · left
        rw [if_pos hP, if_pos hP]
        exact ⟨alGet_alSet_self _ _ _, alGet_alSet_self _ _ _⟩
      · right
        rw [if_neg hP]
    · simp only [if_neg hbig]
      left
      exact ⟨alGet_alSet_self _ _ _, alGet_alSet_self _ _ _⟩
  have hstor : alGet (CacheManager.saveToStorage stc k v t).storage k = some (v, t) :=
    alGet_alSet_self _ _ _
  rcases hcase with ⟨hts, hcv⟩ | hts
  · have hts2 : alGet (CacheManager.saveToStorage stc k v t).cacheTimestamps k = some t := hts
    by_cases ht0 : t = 0
    · subst ht0
      rw [get_eq_of_ts_zero hts2, lfs_eq_of_some hstor]
      by_cases hv : now - 0 ≤ cacheExpiry
      · rw [if_neg (by omega), if_pos hv]
      · rw [if_pos (by omega), if_neg hv]
    · rw [get_eq_of_ts_some hts2 ht0]
      by_cases hv : now - t ≤ cacheExpiry
      · rw [if_neg (by omega), if_pos hv]
        exact hcv
      · rw [if_pos (by omega), if_neg hv]
  · have hts2 : alGet (CacheManager.saveToStorage stc k v t).cacheTimestamps k = none := hts
    rw [get_eq_of_ts_none hts2, lfs_eq_of_some hstor]
    by_cases hv : now - t ≤ cacheExpiry
    · rw [if_neg (by omega), if_pos hv]
    · rw [if_pos (by omega), if_neg hv]

/-- The JS condition `if (cached)` of `cacheUtils.getOrFetch`: the lookup
result is treated as a hit only when it is a truthy value. -/
def cacheHit (st : CacheState) (k : String) (now : Nat) : Bool :=
  match (CacheManager.get st k now).2 with
  | some v => truthy v
  | none => false

/-- C1, counterexample to the claim as stated: `set("v", X, ttl = 1000)` at
t = 0, then `get("v")` at now = 2000.  Here `now − stored_at = 2000 > ttl`,
so the claim requires an absent result, but the code ignores the `ttl`
argument and still returns the payload (2000 ≤ appConfig.cacheExpiry). -/
theorem claim_C1_cex :
    2000 - 0 > 1000
    ∧ (CacheManager.get (CacheManager.set (initState 50) "v" (JSVal.strV "X") 1000 0)
        "v" 2000).2 = some (JSVal.strV "X") := by
  constructor
  · decide
  · decide

/-- C1 (amended): the `ttl` argument of `set` is ignored by the source;
validity is governed by the global `appConfig.cacheExpiry`.  For every key
stored via `set(key, value, ttl)` at time `t`, `get(key)` at time `now`
returns the stored payload while `now − stored_at ≤ appConfig.cacheExpiry`
and returns absent (`null`) once `now − stored_at > appConfig.cacheExpiry`,
never returning a payload beyond that boundary. -/
theorem claim_C1 (st : CacheState) (k : String) (v : JSVal) (ttl t now : Nat) :
    (CacheManager.get (CacheManager.set st k v ttl t) k now).2
      = if now - t ≤ cacheExpiry then some v else none :=
  get_after_set st k v ttl t now

/-- C2: (i) after every sequence of `set` calls from a fresh cache the
in-memory size is at most the configured cap; (ii) after `cleanup` no
expired entry remains; (iii) eviction among surviving entries is
oldest-stored-first: if a newer-stamped valid entry was evicted, so was
every older-stamped valid one; (iv) the spec scenario: cap 2, `set a`,
`set b`, `set c` with no expiry elapsed retains exactly `{b, c}`. -/
theorem claim_C2 :
    (∀ (maxSize : Nat) (ops : List SetOp),
        (runSets (initState maxSize) ops).cache.length ≤ maxSize)
    ∧ (∀ (st : CacheState) (now : Nat) (k : String) (ts : Nat),
        alGet (CacheManager.cleanup st now).cacheTimestamps k = some ts →
          now - ts ≤ cacheExpiry)
    ∧ (∀ (st : CacheState) (now : Nat) (k1 k2 : String) (ts1 ts2 : Nat),
        WF st →
        alGet st.cacheTimestamps k1 = some ts1 →
        alGet st.cacheTimestamps k2 = some ts2 →
        now - ts1 ≤ cacheExpiry → now - ts2 ≤ cacheExpiry → ts1 < ts2 →
        alGet (CacheManager.cleanup st now).cacheTimestamps k2 = none →
        alGet (CacheManager.cleanup st now).cacheTimestamps k1 = none)
    ∧ alKeys (runSets (initState 2)
        [⟨"a", JSVal.strV "1", cacheExpiry, 0⟩, ⟨"b", JSVal.strV "2", cacheExpiry, 1⟩,
         ⟨"c", JSVal.strV "3", cacheExpiry, 2⟩]).cache = ["b", "c"] := by
  refine ⟨?_, ?_, ?_, ?_⟩
  · intro maxSize ops
    have h := runSets_spec ops (initState maxSize)
      ⟨rfl, List.nodup_nil⟩ (by simp [initState])
    exact h.2.2
  · intro st now k ts h
    have h1 := evictOldest_ts_lookup (CacheManager.removeExpired st now) k ts h
    exact (removeExpired_ts_lookup st now k ts h1).2
  · intro st now k1 k2 ts1 ts2 hwf hts1 hts2 hv1 hv2 hlt hgone
    have hwf1 := WF_removeExpired st now hwf
    have hk1 := removeExpired_ts_keep st now k1 ts1 hwf hts1 hv1
    have hk2 := removeExpired_ts_keep st now k2 ts2 hwf hts2 hv2
    exact evictOldest_oldest_first (CacheManager.removeExpired st now)
      k1 k2 ts1 ts2 hwf1 hk1 hk2 hlt hgone
  · decide

/-- A four-entry over-capacity cache used to witness the eviction order. -/
def evictWitnessSt : CacheState :=
  { cache := [("a", JSVal.strV "1"), ("b", JSVal.strV "2"),
              ("c", JSVal.strV "3"), ("d", JSVal.strV "4")],
    cacheTimestamps := [("a", 0), ("b", 1), ("c", 2), ("d", 3)],
    storage := [], maxCacheSize := 2 }

/-- C2 witness: the bound, the no-expired-entry property and the
oldest-first property instantiated at concrete states. -/
theorem claim_C2_witness :
    (runSets (initState 2) [⟨"a", JSVal.strV "1", cacheExpiry, 0⟩]).cache.length ≤ 2
    ∧ 10 - 0 ≤ cacheExpiry
    ∧ alGet (CacheManager.cleanup evictWitnessSt 5).cacheTimestamps "a" = none := by
  refine ⟨claim_C2.1 2 _, ?_, ?_⟩
  · exact claim_C2.2.1
      { cache := [("a", JSVal.strV "1")], cacheTimestamps := [("a", 0)],
        storage := [], maxCacheSize := 2 } 10 "a" 0 (by decide)
  · exact claim_C2.2.2.1 evictWitnessSt 5 "a" "b" 0 1 (by decide) (by decide)
      (by decide) (by decide) (by decide) (by decide) (by decide)

/-- A cache holding a falsy payload (the number 0) under key `k`, with a
fresh timestamp (stored at t = 1): the entry is valid, yet `if (cached)`
treats it as a miss. -/
def falsyHitSt : CacheState :=
  { cache := [("k", JSVal.numV 0)], cacheTimestamps := [("k", 1)],
    storage := [], maxCacheSize := 50 }

/-- C7, counterexample to the claim as stated: a valid (unexpired) cached
entry exists for `k` (payload 0, stored at t = 1, read at now = 1), yet
`getOrFetch` invokes the loader (invocation count 1) and returns the
loader's result instead of the cached value, because `if (cached)` tests
JS truthiness and 0 is falsy. -/
theorem claim_C7_cex :
    alGet falsyHitSt.cacheTimestamps "k" = some 1
    ∧ (1 : Nat) - 1 ≤ cacheExpiry
    ∧ (cacheUtils.getOrFetch falsyHitSt "k" (Except.ok (JSVal.numV 7)) cacheExpiry 1).2.2 = 1
    ∧ (cacheUtils.getOrFetch falsyHitSt "k" (Except.ok (JSVal.numV 7)) cacheExpiry 1).2.1
        = Except.ok (JSVal.numV 7) := by
  refine ⟨by decide, by decide, by decide, by rfl⟩

/-- C7 (amended): `getOrFetch(key, loader)` returns the cached value
without invoking the loader whenever `get` yields a truthy payload;
otherwise (absent, expired, or falsy payload) it invokes the loader
exactly once, stores the result via `set` on success (so an immediate
`get` returns it) and returns it, and a loader failure propagates with the
loader result never stored. -/
theorem claim_C7 (st : CacheState) (k : String) (loader : Except Unit JSVal)
    (ttl now : Nat) :
    (∀ v : JSVal, (CacheManager.get st k now).2 = some v → truthy v = true →
        cacheUtils.getOrFetch st k loader ttl now
          = ((CacheManager.get st k now).1, Except.ok v, 0))
    ∧ (cacheHit st k now = false →
        (cacheUtils.getOrFetch st k loader ttl now).2.2 = 1
        ∧ (∀ d : JSVal, loader = Except.ok d →
            cacheUtils.getOrFetch st k loader ttl now
              = (CacheManager.set (CacheManager.get st k now).1 k d ttl now,
                 Except.ok d, 1)
            ∧ (CacheManager.get
                (CacheManager.set (CacheManager.get st k now).1 k d ttl now) k now).2
                  = some d)
        ∧ (∀ ε : Unit, loader = Except.error ε →
            cacheUtils.getOrFetch st k loader ttl now
              = ((CacheManager.get st k now).1, Except.error ε, 1))) := by
  constructor
  · intro v hv htr
    simp [cacheUtils.getOrFetch, hv, htr]
  · intro hmiss
    have heq : cacheUtils.getOrFetch st k loader ttl now
        = match loader with
          | Except.ok d =>
              (CacheManager.set (CacheManager.get st k now).1 k d ttl now,
               Except.ok d, 1)
          | Except.error ε => ((CacheManager.get st k now).1, Except.error ε, 1) := by
      rcases hres : (CacheManager.get st k now).2 with _ | v
      · cases loader <;> simp [cacheUtils.getOrFetch, hres]
      · have htr : truthy v = false := by
          have h2 := hmiss
          simp only [cacheHit, hres] at h2
          exact h2
        cases loader <;> simp [cacheUtils.getOrFetch, hres, htr]
    refine ⟨?_, ?_, ?_⟩
    · rw [heq]
      cases loader <;> rfl
    · intro d hd
      subst hd
      rw [heq]
      refine ⟨rfl, ?_⟩
      rw [get_after_set]
      simp
    · intro ε hε
      subst hε
      rw [heq]

/-- C7 witness: a truthy valid hit returns the cached value with zero
loader invocations; a cold key invokes the loader exactly once. -/
theorem claim_C7_witness :
    cacheUtils.getOrFetch
        { cache := [("k", JSVal.numV 5)], cacheTimestamps := [("k", 1)],
          storage := [], maxCacheSize := 50 } "k"
        (Except.ok (JSVal.numV 7)) cacheExpiry 1
      = ((CacheManager.get
          { cache := [("k", JSVal.numV 5)], cacheTimestamps := [("k", 1)],
            storage := [], maxCacheSize := 50 } "k" 1).1,
         Except.ok (JSVal.numV 5), 0)
    ∧ (cacheUtils.getOrFetch (initState 50) "k" (Except.error ()) cacheExpiry 0).2.2 = 1 := by
  constructor
  · exact (claim_C7
      { cache := [("k", JSVal.numV 5)], cacheTimestamps := [("k", 1)],
        storage := [], maxCacheSize := 50 } "k"
      (Except.ok (JSVal.numV 7)) cacheExpiry 1).1 (JSVal.numV 5) (by decide) (by decide)
  · exact ((claim_C7 (initState 50) "k" (Except.error ()) cacheExpiry 0).2 (by decide)).1

/-! ### Viewport Renderer (`src/Y/js/VirtualScrollingManager.js`)

Geometry values (scroll offset, heights) are rationals, indices are
integers (JS numbers; the fractional behaviour of `Math.floor`/`Math.ceil`
is what matters here).  DOM effects (building item nodes, setting the
spacer height and the translate transform) are not part of the state; the
listener registry is, because `destroy` is specified to empty it.  JS
compares listeners by function reference, so each function object carries
an identity: bound methods have fixed identities and every arrow-function
expression evaluation yields a fresh one. -/

inductive ListenTarget where
  | container : ListenTarget
  | windowT : ListenTarget
deriving DecidableEq, Repr

/-- A registered DOM listener: target, event type, callback identity. -/
structure Listener where
  target : ListenTarget
  evType : String
  funId : Nat
deriving DecidableEq, Repr

/-- Identity of the bound method `this.handleScroll`. -/
def handleScrollId : Nat := 0

/-- Identity of the bound method `this.updateContainerHeight`. -/
def updateContainerHeightId : Nat := 1

/-- Identity of the arrow closure passed to
`container.addEventListener('scroll', () => { this.handleScroll(); })`. -/
def scrollClosureId : Nat := 2

/-- Identity of the arrow closure passed to
`window.addEventListener('resize', () => { ... })`. -/
def resizeClosureId : Nat := 3

structure VSState where
  itemHeight : ℚ
  bufferSize : ℤ
  data : List JSVal
  scrollTop : ℚ
  containerHeight : ℚ
  totalHeight : ℚ
  startIndex : ℤ
  endIndex : ℤ
  listeners : List Listener
deriving DecidableEq, Repr

/-- The constructor: zeroed state, `setupEventListeners` registering the
two arrow closures, `updateContainerHeight` reading the container's
current client height (an input of the model). -/
def VirtualScrollingManager.new (itemHeight : ℚ) (bufferSize : ℤ)
    (clientHeight : ℚ) : VSState :=
  { itemHeight := itemHeight, bufferSize := bufferSize, data := [],
    scrollTop := 0, containerHeight := clientHeight, totalHeight := 0,
    startIndex := 0, endIndex := 0,
    listeners := [⟨ListenTarget.container, "scroll", scrollClosureId⟩,
                  ⟨ListenTarget.windowT, "resize", resizeClosureId⟩] }

/-- `calculateVisibleRange`:
`startIndex = max(0, floor(scrollTop / itemHeight) - bufferSize)` and
`endIndex = min(len - 1, ceil((scrollTop + containerHeight) / itemHeight)
+ bufferSize)`. -/
def VirtualScrollingManager.calculateVisibleRange (st : VSState) : VSState :=
  { st with
    startIndex := max 0 (⌊st.scrollTop / st.itemHeight⌋ - st.bufferSize),
    endIndex := min ((st.data.length : ℤ) - 1)
      (⌈(st.scrollTop + st.containerHeight) / st.itemHeight⌉ + st.bufferSize) }

/-- `updateVisibleItems` recomputes the range; the DOM work (discarding
and re-instantiating the visible nodes, setting the translate offset) has
no further state. -/
def VirtualScrollingManager.updateVisibleItems (st : VSState) : VSState :=
  VirtualScrollingManager.calculateVisibleRange st

/-- `setData(data, renderFunction)`. -/
def VirtualScrollingManager.setData (st : VSState) (data : List JSVal) : VSState :=
  VirtualScrollingManager.updateVisibleItems
    { st with data := data, totalHeight := (data.length : ℚ) * st.itemHeight }

/-- `handleScroll` with the container's new scroll offset: re-render only
when the delta exceeds half an item height. -/
def VirtualScrollingManager.handleScroll (st : VSState) (newScrollTop : ℚ) : VSState :=
  if |newScrollTop - st.scrollTop| > st.itemHeight / 2 then
    VirtualScrollingManager.updateVisibleItems { st with scrollTop := newScrollTop }
  else st

/-- The resize listener: `updateContainerHeight()` then
`updateVisibleItems()`. -/
def VirtualScrollingManager.onResize (st : VSState) (clientHeight : ℚ) : VSState :=
  VirtualScrollingManager.updateVisibleItems { st with containerHeight := clientHeight }

/-- `addItem(item, index = -1)`: `push` when the index is the default -1,
otherwise `splice(index, 0, item)` (negative indices count from the end,
indices beyond the length append, as JS `splice` clamps). -/
def VirtualScrollingManager.addItem (st : VSState) (item : JSVal) (index : ℤ) : VSState :=
  let newData :=
    if index = -1 then st.data ++ [item]
    else
      let p := if index < 0 then ((st.data.length : ℤ) + index).toNat
               else min index.toNat st.data.length
      st.data.take p ++ item :: st.data.drop p
  VirtualScrollingManager.updateVisibleItems
    { st with data := newData, totalHeight := (newData.length : ℚ) * st.itemHeight }

/-- `removeItem(index)`: only in-range indices mutate. -/
def VirtualScrollingManager.removeItem (st : VSState) (index : ℤ) : VSState :=
  if 0 ≤ index ∧ index < (st.data.length : ℤ) then
    let newData := st.data.take index.toNat ++ st.data.drop (index.toNat + 1)
    VirtualScrollingManager.updateVisibleItems
      { st with data := newData, totalHeight := (newData.length : ℚ) * st.itemHeight }
  else st

/-- `updateItem(index, newData)`: in-place replacement of the backing
entry (the `{ ...old, ...patch }` merge is opaque at this level); the
window is not recomputed. -/
def VirtualScrollingManager.updateItem (st : VSState) (index : ℤ) (item : JSVal) : VSState :=
  if 0 ≤ index ∧ index < (st.data.length : ℤ) then
    { st with data := st.data.set index.toNat item }
  else st

/-- `clear()`: empties the data and zeroes the spacer, without a window
recompute. -/
def VirtualScrollingManager.clearAll (st : VSState) : VSState :=
  { st with data := [], totalHeight := 0 }

/-- `setItemHeight(newHeight)`: rescales and recomputes. -/
def VirtualScrollingManager.setItemHeight (st : VSState) (newHeight : ℚ) : VSState :=
  VirtualScrollingManager.updateVisibleItems
    { st with itemHeight := newHeight,
              totalHeight := (st.data.length : ℚ) * newHeight }

/-- `removeEventListener` semantics: drop the registered listener equal to
the given (target, type, callback identity) triple, if any; otherwise a
no-op. -/
def removeListener (ls : List Listener) (l : Listener) : List Listener :=
  match ls with
  | [] => []
  | x :: rest => if x = l then rest else x :: removeListener rest l

/-- `destroy()`: calls `removeEventListener('scroll', this.handleScroll)`
on the container and `removeEventListener('resize',
this.updateContainerHeight)` on the window.  Those method references were
never registered (the registered callbacks are the two arrow closures), so
both removals match nothing. -/
def VirtualScrollingManager.destroy (st : VSState) : VSState :=
  let ls1 := removeListener st.listeners ⟨ListenTarget.container, "scroll", handleScrollId⟩
  let ls2 := removeListener ls1 ⟨ListenTarget.windowT, "resize", updateContainerHeightId⟩
  { st with listeners := ls2 }

/-- The renderer operations driven by the application and by DOM events. -/
inductive VSOp where
  | setData (data : List JSVal) : VSOp
  | addItem (item : JSVal) (index : ℤ) : VSOp
  | removeItem (index : ℤ) : VSOp
  | updateItem (index : ℤ) (item : JSVal) : VSOp
  | scroll (newScrollTop : ℚ) : VSOp
  | resize (clientHeight : ℚ) : VSOp
  | setItemHeight (h : ℚ) : VSOp
  | clearAll : VSOp

def applyVSOp (st : VSState) : VSOp → VSState
  | .setData d => VirtualScrollingManager.setData st d
  | .addItem it i => VirtualScrollingManager.addItem st it i
  | .removeItem i => VirtualScrollingManager.removeItem st i
  | .updateItem i it => VirtualScrollingManager.updateItem st i it
  | .scroll s => VirtualScrollingManager.handleScroll st s
  | .resize c => VirtualScrollingManager.onResize st c
  | .setItemHeight h => VirtualScrollingManager.setItemHeight st h
  | .clearAll => VirtualScrollingManager.clearAll st

def runVS (st : VSState) (ops : List VSOp) : VSState :=
  ops.foldl applyVSOp st

/-- The fixed-height geometry invariant of the renderer. -/
def totalHeightInv (st : VSState) : Prop :=
  st.totalHeight = (st.data.length : ℚ) * st.itemHeight

theorem applyVSOp_totalHeightInv (st : VSState) (op : VSOp) (h : totalHeightInv st) :
    totalHeightInv (applyVSOp st op) := by
  cases op with
  | setData d =>
    simp [applyVSOp, VirtualScrollingManager.setData,
      VirtualScrollingManager.updateVisibleItems,
      VirtualScrollingManager.calculateVisibleRange, totalHeightInv]
  | addItem it i =>
    simp [applyVSOp, VirtualScrollingManager.addItem,
      VirtualScrollingManager.updateVisibleItems,
      VirtualScrollingManager.calculateVisibleRange, totalHeightInv]
  | removeItem i =>
    simp only [applyVSOp, VirtualScrollingManager.removeItem]
    split
    · simp [VirtualScrollingManager.updateVisibleItems,
        VirtualScrollingManager.calculateVisibleRange, totalHeightInv]
    · exact h
  | updateItem i it =>
    simp only [applyVSOp, VirtualScrollingManager.updateItem]
    split
    · show st.totalHeight = ((st.data.set i.toNat it).length : ℚ) * st.itemHeight
      rw [List.length_set]
      exact h
    · exact h
  | scroll s =>
    simp only [applyVSOp, VirtualScrollingManager.handleScroll]
    split
    · exact h
    · exact h
  | resize c => exact h
  | setItemHeight hh =>
    simp [applyVSOp, VirtualScrollingManager.setItemHeight,
      VirtualScrollingManager.updateVisibleItems,
      VirtualScrollingManager.calculateVisibleRange, totalHeightInv]
  | clearAll =>
    simp [applyVSOp, VirtualScrollingManager.clearAll, totalHeightInv]

theorem runVS_totalHeightInv (ops : List VSOp) :
    ∀ st : VSState, totalHeightInv st → totalHeightInv (runVS st ops) := by
  induction ops with
  | nil => intro st h; exact h
  | cons o ops ih =>
    intro st h
    exact ih (applyVSOp st o) (applyVSOp_totalHeightInv st o h)

/-- C4: after every sequence of renderer operations applied from the
constructor state — in particular after every `setData`, `addItem` and
`removeItem` — `totalHeight` equals the current list length times
`itemHeight` (fixed-height mode), and an empty list yields
`totalHeight = 0`. -/
theorem claim_C4 (itemHeight : ℚ) (bufferSize : ℤ) (clientHeight : ℚ)
    (ops : List VSOp) :
    totalHeightInv (runVS (VirtualScrollingManager.new itemHeight bufferSize clientHeight) ops)
    ∧ ((runVS (VirtualScrollingManager.new itemHeight bufferSize clientHeight) ops).data = [] →
        (runVS (VirtualScrollingManager.new itemHeight bufferSize clientHeight) ops).totalHeight
          = 0) := by
  have h := runVS_totalHeightInv ops
    (VirtualScrollingManager.new itemHeight bufferSize clientHeight)
    (by simp [totalHeightInv, VirtualScrollingManager.new])
  refine ⟨h, ?_⟩
  intro hd
  rw [totalHeightInv] at h
  rw [h, hd]
  simp

/-- C4 witness: `setData([])` on a fresh renderer yields an empty list and
`totalHeight = 0`. -/
theorem claim_C4_witness :
    (runVS (VirtualScrollingManager.new 60 5 600) [VSOp.setData []]).totalHeight = 0 :=
  (claim_C4 60 5 600 [VSOp.setData []]).2 rfl

/-- The 1000-record list of the spec scenario. -/
def thousandNulls : List JSVal := List.replicate 1000 JSVal.nullV

theorem thousandNulls_length : thousandNulls.length = 1000 :=
  List.length_replicate _ _

/-- C3: `calculateVisibleRange` computes
`startIndex = max(0, floor(scrollTop / itemHeight) - buffer)` and
`endIndex = min(len - 1, ceil((scrollTop + containerHeight) / itemHeight)
+ buffer)` on every state; and for 1000 records, itemHeight 60,
containerHeight 600, buffer 5, scrollTop 1200 (reached by `setData` then a
scroll event) the result is startIndex = 15 and endIndex = 35. -/
theorem claim_C3 (st : VSState) :
    ((VirtualScrollingManager.calculateVisibleRange st).startIndex
        = max 0 (⌊st.scrollTop / st.itemHeight⌋ - st.bufferSize)
      ∧ (VirtualScrollingManager.calculateVisibleRange st).endIndex
        = min ((st.data.length : ℤ) - 1)
            (⌈(st.scrollTop + st.containerHeight) / st.itemHeight⌉ + st.bufferSize))
    ∧ ((runVS (VirtualScrollingManager.new 60 5 600)
          [VSOp.setData thousandNulls, VSOp.scroll 1200]).startIndex = 15
      ∧ (runVS (VirtualScrollingManager.new 60 5 600)
          [VSOp.setData thousandNulls, VSOp.scroll 1200]).endIndex = 35) := by
  refine ⟨⟨rfl, rfl⟩, ?_, ?_⟩
  · have hcond : |(1200 : ℚ) - (applyVSOp (VirtualScrollingManager.new 60 5 600)
        (VSOp.setData thousandNulls)).scrollTop|
        > (applyVSOp (VirtualScrollingManager.new 60 5 600)
            (VSOp.setData thousandNulls)).itemHeight / 2 := by
      show |(1200 : ℚ) - 0| > (60 : ℚ) / 2
      norm_num
    show (VirtualScrollingManager.handleScroll
        (applyVSOp (VirtualScrollingManager.new 60 5 600)
          (VSOp.setData thousandNulls)) 1200).startIndex = 15
    rw [VirtualScrollingManager.handleScroll, if_pos hcond]
    show max 0 (⌊(1200 : ℚ) / 60⌋ - 5) = 15
    rw [show (⌊(1200 : ℚ) / 60⌋ : ℤ) = 20 from by norm_num]
    decide
  · have hcond : |(1200 : ℚ) - (applyVSOp (VirtualScrollingManager.new 60 5 600)
        (VSOp.setData thousandNulls)).scrollTop|
        > (applyVSOp (VirtualScrollingManager.new 60 5 600)
            (VSOp.setData thousandNulls)).itemHeight / 2 := by
      show |(1200 : ℚ) - 0| > (60 : ℚ) / 2
      norm_num
    show (VirtualScrollingManager.handleScroll
        (applyVSOp (VirtualScrollingManager.new 60 5 600)
          (VSOp.setData thousandNulls)) 1200).endIndex = 35
    rw [VirtualScrollingManager.handleScroll, if_pos hcond]
    show min ((thousandNulls.length : ℤ) - 1) (⌈((1200 : ℚ) + 600) / 60⌉ + 5) = 35
    rw [thousandNulls_length,
      show (⌈((1200 : ℚ) + 600) / 60⌉ : ℤ) = 30 from by norm_num]
    decide

/-- A 100-record list: large enough to scroll far down before shrinking. -/
def hundredNulls : List JSVal := List.replicate 100 JSVal.nullV

/-- The renderer state reached by loading 100 records, scrolling to offset
5940 (the bottom), then replacing the data with a single record: the
scroll offset field keeps its stale value 5940. -/
def shrunkState : VSState :=
  runVS (VirtualScrollingManager.new 60 5 600)
    [VSOp.setData hundredNulls, VSOp.scroll 5940, VSOp.setData [JSVal.nullV]]

/-- C8, counterexample to the claim as stated: `shrunkState` is a renderer
state produced by visible-range computations on a non-empty list, yet
`startIndex = 94 > endIndex = 0`, violating both `startIndex ≤ endIndex`
and `startIndex ≤ len − 1`. -/
theorem claim_C8_cex :
    shrunkState.data ≠ []
    ∧ shrunkState.startIndex = 94
    ∧ shrunkState.endIndex = 0
    ∧ ¬(shrunkState.startIndex ≤ shrunkState.endIndex) := by
  have hcond : |(5940 : ℚ) - (applyVSOp (VirtualScrollingManager.new 60 5 600)
      (VSOp.setData hundredNulls)).scrollTop|
      > (applyVSOp (VirtualScrollingManager.new 60 5 600)
          (VSOp.setData hundredNulls)).itemHeight / 2 := by
    show |(5940 : ℚ) - 0| > (60 : ℚ) / 2
    norm_num
  have hstart : shrunkState.startIndex = 94 := by
    show (VirtualScrollingManager.setData
        (VirtualScrollingManager.handleScroll
          (applyVSOp (VirtualScrollingManager.new 60 5 600)
            (VSOp.setData hundredNulls)) 5940) [JSVal.nullV]).startIndex = 94
    rw [VirtualScrollingManager.handleScroll, if_pos hcond]
    show max 0 (⌊(5940 : ℚ) / 60⌋ - 5) = 94
    rw [show (⌊(5940 : ℚ) / 60⌋ : ℤ) = 99 from by norm_num]
    decide
  have hend : shrunkState.endIndex = 0 := by
    show (VirtualScrollingManager.setData
        (VirtualScrollingManager.handleScroll
          (applyVSOp (VirtualScrollingManager.new 60 5 600)
            (VSOp.setData hundredNulls)) 5940) [JSVal.nullV]).endIndex = 0
    rw [VirtualScrollingManager.handleScroll, if_pos hcond]
    show min (((1 : Nat) : ℤ) - 1) (⌈((5940 : ℚ) + 600) / 60⌉ + 5) = 0
    rw [show (⌈((5940 : ℚ) + 600) / 60⌉ : ℤ) = 109 from by norm_num]
    decide
  refine ⟨?_, hstart, hend, ?_⟩
  · show ([JSVal.nullV] : List JSVal) ≠ []
    simp
  · rw [hstart, hend]
    decide

/-- C8 (amended): whenever the scroll offset lies within the list's extent
(`scrollTop < len × itemHeight`, which the browser guarantees while the
list is not replaced by a shorter one), the computed range of
`calculateVisibleRange` on a non-empty list satisfies
`0 ≤ startIndex ≤ endIndex ≤ len − 1`; when the stale scroll offset
exceeds the list extent after the list shrinks, `startIndex` may exceed
`endIndex` (the rendered range is then empty). -/
theorem claim_C8 (st : VSState) (h0 : 0 ≤ st.scrollTop) (hch : 0 ≤ st.containerHeight)
    (hh : 0 < st.itemHeight) (hb : 0 ≤ st.bufferSize) (hne : st.data ≠ [])
    (hs : st.scrollTop < (st.data.length : ℚ) * st.itemHeight) :
    0 ≤ (VirtualScrollingManager.calculateVisibleRange st).startIndex
    ∧ (VirtualScrollingManager.calculateVisibleRange st).startIndex
        ≤ (VirtualScrollingManager.calculateVisibleRange st).endIndex
    ∧ (VirtualScrollingManager.calculateVisibleRange st).endIndex
        ≤ (st.data.length : ℤ) - 1 := by
  have hlen : 0 < st.data.length := List.length_pos.mpr hne
  have hlen' : (1 : ℤ) ≤ (st.data.length : ℤ) := by exact_mod_cast hlen
  have hf1 : ⌊st.scrollTop / st.itemHeight⌋ ≤ (st.data.length : ℤ) - 1 := by
    have hdiv : st.scrollTop / st.itemHeight < ((st.data.length : ℤ) : ℚ) := by
      rw [div_lt_iff hh]
      push_cast
      exact hs
    have := Int.floor_lt.mpr hdiv
    omega
  have hf2 : ⌊st.scrollTop / st.itemHeight⌋
      ≤ ⌈(st.scrollTop + st.containerHeight) / st.itemHeight⌉ := by
    refine le_trans (Int.floor_mono ?_) (Int.floor_le_ceil _)
    exact (div_le_div_right hh).mpr (le_add_of_nonneg_right hch)
  have hcl0 : 0 ≤ ⌈(st.scrollTop + st.containerHeight) / st.itemHeight⌉ :=
    Int.ceil_nonneg (div_nonneg (add_nonneg h0 hch) hh.le)
  refine ⟨?_, ?_, ?_⟩
  · show (0 : ℤ) ≤ max 0 (⌊st.scrollTop / st.itemHeight⌋ - st.bufferSize)
    exact le_max_left _ _
  · show max 0 (⌊st.scrollTop / st.itemHeight⌋ - st.bufferSize)
        ≤ min ((st.data.length : ℤ) - 1)
            (⌈(st.scrollTop + st.containerHeight) / st.itemHeight⌉ + st.bufferSize)
    refine le_min (max_le ?_ ?_) (max_le ?_ ?_)
    · omega
    · omega
    · omega
    · omega
  · show min ((st.data.length : ℤ) - 1)
        (⌈(st.scrollTop + st.containerHeight) / st.itemHeight⌉ + st.bufferSize)
        ≤ (st.data.length : ℤ) - 1
    exact min_le_left _ _

/-- C8 witness: a concrete in-extent state (one record, scrollTop 30,
itemHeight 60) on which the amended bounds hold. -/
theorem claim_C8_witness :
    0 ≤ (VirtualScrollingManager.calculateVisibleRange
        { itemHeight := 60, bufferSize := 5, data := [JSVal.nullV], scrollTop := 30,
          containerHeight := 600, totalHeight := 60, startIndex := 0, endIndex := 0,
          listeners := [] }).startIndex
    ∧ (VirtualScrollingManager.calculateVisibleRange
        { itemHeight := 60, bufferSize := 5, data := [JSVal.nullV], scrollTop := 30,
          containerHeight := 600, totalHeight := 60, startIndex := 0, endIndex := 0,
          listeners := [] }).startIndex
      ≤ (VirtualScrollingManager.calculateVisibleRange
        { itemHeight := 60, bufferSize := 5, data := [JSVal.nullV], scrollTop := 30,
          containerHeight := 600, totalHeight := 60, startIndex := 0, endIndex := 0,
          listeners := [] }).endIndex
    ∧ (VirtualScrollingManager.calculateVisibleRange
        { itemHeight := 60, bufferSize := 5, data := [JSVal.nullV], scrollTop := 30,
          containerHeight := 600, totalHeight := 60, startIndex := 0, endIndex := 0,
          listeners := [] }).endIndex
      ≤ (([JSVal.nullV] : List JSVal).length : ℤ) - 1 :=
  claim_C8
    { itemHeight := 60, bufferSize := 5, data := [JSVal.nullV], scrollTop := 30,
      containerHeight := 600, totalHeight := 60, startIndex := 0, endIndex := 0,
      listeners := [] }
    (by norm_num) (by norm_num) (by norm_num) (by norm_num) (by simp)
    (by show (30 : ℚ) < (([JSVal.nullV] : List JSVal).length : ℚ) * 60; norm_num)

/-- C9: the claim is right and the code is wrong.  One create/destroy
cycle leaves both listeners registered: `setupEventListeners` registers
two anonymous arrow closures, but `destroy` passes `this.handleScroll` and
`this.updateContainerHeight` to `removeEventListener` — function
references that were never registered — so both removals are no-ops and
the registry after `destroy` is unchanged and non-empty. -/
theorem claim_C9 :
    (VirtualScrollingManager.destroy (VirtualScrollingManager.new 60 5 600)).listeners
      = (VirtualScrollingManager.new 60 5 600).listeners
    ∧ (VirtualScrollingManager.new 60 5 600).listeners ≠ [] := by
  constructor
  · decide
  · decide

/-! ### Query Engine (`src/unnamed/part_001`, `VoucherManager`)

`performVoucherSearch` scans the cached voucher collection once, testing a
case-folded substring predicate on the `voucherNumber` field, collecting
matches in collection order and stopping at 100 results.  The search-box
value and the result of a cold-cache `loadAllVouchersCache` round trip are
explicit inputs of the model. -/

/-- JS `String.prototype.trim`: strip leading and trailing whitespace
(implemented over the character list so that it evaluates in the
kernel). -/
def jsTrim (s : String) : String :=
  ⟨((s.data.dropWhile Char.isWhitespace).reverse.dropWhile Char.isWhitespace).reverse⟩

/-- JS `String.prototype.toLowerCase` (ASCII case fold). -/
def jsToLower (s : String) : String := ⟨s.data.map Char.toLower⟩

structure Voucher where
  id : String
  voucherNumber : JSVal
deriving DecidableEq, Repr

/-- `(voucher.voucherNumber || '').toString().toLowerCase()`. -/
def voucherNumberNorm (v : Voucher) : String :=
  jsToLower (jsToString (if truthy v.voucherNumber then v.voucherNumber else JSVal.strV ""))

/-- Character-list test: the first list occurs at the head of the second. -/
def listStartsWith : List Char → List Char → Bool
  | [], _ => true
  | _ :: _, [] => false
  | a :: as, b :: bs => a == b && listStartsWith as bs

/-- The first list occurs contiguously somewhere in the second. -/
def listHasSub (needle : List Char) : List Char → Bool
  | [] => listStartsWith needle []
  | c :: rest => listStartsWith needle (c :: rest) || listHasSub needle rest

/-- JS `String.prototype.includes`. -/
def strIncludes (hay needle : String) : Bool :=
  listHasSub needle.toList hay.toList

/-- The per-record predicate of the scan:
`voucherNumber.includes(searchQuery)` (both sides case-folded). -/
def matchesQuery (searchQuery : String) (v : Voucher) : Bool :=
  strIncludes (voucherNumberNorm v) searchQuery

/-- The scan loop of `performVoucherSearch`: push each match, and break
once the result list has reached 100 entries; `cnt` is the current result
count. -/
def searchScan (q : String) : List Voucher → Nat → List Voucher
  | [], _ => []
  | v :: rest, cnt =>
    if matchesQuery q v then
      if cnt + 1 ≥ 100 then [v]
      else v :: searchScan q rest (cnt + 1)
    else searchScan q rest cnt

structure VMState where
  allVouchersCache : Option (List Voucher)
  searchResults : List Voucher
  isSearchMode : Bool
deriving DecidableEq, Repr

/-- `performVoucherSearch`: a blank (trimmed) query returns immediately;
otherwise the cache is used (loaded once via `loadAllVouchersCache` when
cold, its result passed here as `loadResult`), the scan runs with the
lowercased query, and zero matches leave `isSearchMode = false` while any
match enters search mode and displays the results.  The signed-out early
return is outside the model (all claims concern a signed-in user). -/
def performVoucherSearch (st : VMState) (inputValue : String)
    (loadResult : List Voucher) : VMState :=
  let q := jsTrim inputValue
  if q = "" then st
  else
    let cache := match st.allVouchersCache with
      | some c => c
      | none => loadResult
    let results := searchScan (jsToLower q) cache 0
    if results.length = 0 then
      { allVouchersCache := some cache, searchResults := results, isSearchMode := false }
    else
      { allVouchersCache := some cache, searchResults := results, isSearchMode := true }

/-- The truncation notice condition: the "first 100 shown" message is
chosen exactly when `searchResults.length >= 100`. -/
def truncationSignal (st : VMState) : Bool :=
  decide (100 ≤ st.searchResults.length)

theorem searchScan_eq_take (q : String) :
    ∀ (vs : List Voucher) (cnt : Nat), cnt < 100 →
      searchScan q vs cnt = (vs.filter (matchesQuery q)).take (100 - cnt) := by
  intro vs
  induction vs with
  | nil =>
    intro cnt _
    simp [searchScan]
  | cons v rest ih =>
    intro cnt hcnt
    by_cases hm : matchesQuery q v
    · by_cases hbreak : cnt + 1 ≥ 100
      · have hcnt99 : cnt = 99 := by omega
        subst hcnt99
        simp [searchScan, hm, List.filter_cons]
      · have hlt : cnt + 1 < 100 := by omega
        rw [searchScan, if_pos hm, if_neg hbreak, ih (cnt + 1) hlt,
          List.filter_cons_of_pos hm,
          show 100 - cnt = (100 - (cnt + 1)) + 1 from by omega,
          List.take_succ_cons]
    · rw [searchScan, if_neg hm, ih cnt hcnt, List.filter_cons_of_neg hm]

theorem performVoucherSearch_results (st : VMState) (input : String)
    (loadResult : List Voucher) (c : List Voucher)
    (hc : st.allVouchersCache = some c) (hq : jsTrim input ≠ "") :
    (performVoucherSearch st input loadResult).searchResults
      = (c.filter (matchesQuery (jsToLower (jsTrim input)))).take 100 := by
  have hscan := searchScan_eq_take (jsToLower (jsTrim input)) c 0 (by omega)
  rw [Nat.sub_zero] at hscan
  simp only [performVoucherSearch, hc]
  rw [if_neg hq]
  split <;> exact hscan

/-- C5: for every cached collection, the search scans in original order
with the case-folded substring predicate, keeping the first 100 matches:
with more than 100 matches it returns exactly the first 100 and signals
truncation; with fewer than 100 it returns all matches and signals no
truncation. -/
theorem claim_C5 (st : VMState) (input : String) (loadResult : List Voucher)
    (c : List Voucher) (hc : st.allVouchersCache = some c) (hq : jsTrim input ≠ "") :
    (performVoucherSearch st input loadResult).searchResults
        = (c.filter (matchesQuery (jsToLower (jsTrim input)))).take 100
    ∧ ((c.filter (matchesQuery (jsToLower (jsTrim input)))).length > 100 →
        (performVoucherSearch st input loadResult).searchResults.length = 100
        ∧ truncationSignal (performVoucherSearch st input loadResult) = true)
    ∧ ((c.filter (matchesQuery (jsToLower (jsTrim input)))).length < 100 →
        (performVoucherSearch st input loadResult).searchResults
            = c.filter (matchesQuery (jsToLower (jsTrim input)))
        ∧ truncationSignal (performVoucherSearch st input loadResult) = false) := by
  have hres := performVoucherSearch_results st input loadResult c hc hq
  refine ⟨hres, ?_, ?_⟩
  · intro hbig
    have hlen : (performVoucherSearch st input loadResult).searchResults.length = 100 := by
      rw [hres, List.length_take]
      omega
    refine ⟨hlen, ?_⟩
    rw [truncationSignal, hlen]
    decide
  · intro hsmall
    have htake : (c.filter (matchesQuery (jsToLower (jsTrim input)))).take 100
        = c.filter (matchesQuery (jsToLower (jsTrim input))) :=
      List.take_of_length_le (by omega)
    refine ⟨by rw [hres, htake], ?_⟩
    rw [truncationSignal]
    have hlen : (performVoucherSearch st input loadResult).searchResults.length < 100 := by
      rw [hres, htake]
      exact hsmall
    simp only [decide_eq_false_iff_not]
    omega

/-- A voucher whose number contains the digit 7. -/
def vMatch : Voucher := ⟨"1", JSVal.strV "777"⟩

/-- A voucher whose number does not contain the letter z. -/
def vOther : Voucher := ⟨"2", JSVal.strV "888"⟩

/-- C5 witness: one cached voucher matching the query "7" — all matches
returned, no truncation signalled. -/
theorem claim_C5_witness :
    (performVoucherSearch ⟨some [vMatch], [], false⟩ "7" []).searchResults
        = ([vMatch] : List Voucher).filter (matchesQuery (jsToLower (jsTrim "7")))
    ∧ truncationSignal (performVoucherSearch ⟨some [vMatch], [], false⟩ "7" []) = false :=
  (claim_C5 ⟨some [vMatch], [], false⟩ "7" [] [vMatch] rfl (by decide)).2.2 (by decide)

/-- C10: a non-empty query that matches nothing in the cached collection
leaves search mode off and the search-result list empty, so the previous
unfiltered list remains the active list (`renderDailyVouchers` is not
short-circuited by `isSearchMode`). -/
theorem claim_C10 (st : VMState) (input : String) (loadResult : List Voucher)
    (c : List Voucher) (hc : st.allVouchersCache = some c) (hq : jsTrim input ≠ "")
    (hzero : c.filter (matchesQuery (jsToLower (jsTrim input))) = []) :
    (performVoucherSearch st input loadResult).isSearchMode = false
    ∧ (performVoucherSearch st input loadResult).searchResults = [] := by
  have hscan : searchScan (jsToLower (jsTrim input)) c 0 = [] := by
    rw [searchScan_eq_take (jsToLower (jsTrim input)) c 0 (by omega), hzero]
    rfl
  have hstate : performVoucherSearch st input loadResult
      = { allVouchersCache := some c, searchResults := [], isSearchMode := false } := by
    simp only [performVoucherSearch, hc]
    rw [if_neg hq, hscan]
    simp
  rw [hstate]
  exact ⟨rfl, rfl⟩

/-- C10 witness: query "zzz" against a cache holding only voucher number
888, from a state that was in search mode. -/
theorem claim_C10_witness :
    (performVoucherSearch ⟨some [vOther], [vOther], true⟩ "zzz" []).isSearchMode = false
    ∧ (performVoucherSearch ⟨some [vOther], [vOther], true⟩ "zzz" []).searchResults = [] :=
  claim_C10 ⟨some [vOther], [vOther], true⟩ "zzz" [] [vOther] rfl (by decide) (by decide)

/-! ### Debounce layer (`handleSearchInput` and the Enter keypress
handler of `VoucherManager.setupEventListeners`)

The single debounce timer slot, the search input field's current content
and the issued queries are explicit state; DOM events arrive as timed
event values and a due timer fires before the next event is handled. -/

/-- The fixed debounce delay (300 ms). -/
def debounceDelay : Nat := 300

structure DebState where
  searchDebounceTimer : Option Nat
  input : String
  queries : List String
  vm : VMState
deriving DecidableEq, Repr

/-- Run `performVoucherSearch`: it re-reads the input field; a blank
trimmed value returns without querying, otherwise the trimmed value is the
issued query (recorded in `queries`) and the search updates the voucher
state. -/
def doSearch (loadResult : List Voucher) (st : DebState) : DebState :=
  if jsTrim st.input = "" then st
  else { st with queries := st.queries ++ [jsTrim st.input],
                 vm := performVoucherSearch st.vm st.input loadResult }

/-- Fire the pending `setTimeout` callback if its deadline has been
reached by time `t`. -/
def fireIfDue (loadResult : List Voucher) (st : DebState) (t : Nat) : DebState :=
  match st.searchDebounceTimer with
  | some d => if d ≤ t then doSearch loadResult { st with searchDebounceTimer := none } else st
  | none => st

inductive DebEvent where
  | keyInput (v : String) (t : Nat) : DebEvent
  | pressEnter (t : Nat) : DebEvent
  | timePass (t : Nat) : DebEvent
deriving DecidableEq, Repr

/-- One event step.  A due timer fires first.  `keyInput v t` is
`handleSearchInput` with the field now reading `v`: clear the pending
timer; a blank value immediately leaves search mode with no query;
otherwise re-arm the timer for `t + 300`.  `pressEnter` is the Enter
keypress handler: clear the pending timer and search immediately.
`timePass` merely advances the clock to `t`. -/
def debStep (loadResult : List Voucher) (st : DebState) : DebEvent → DebState
  | .keyInput v t =>
    let st1 := fireIfDue loadResult st t
    let st2 := { st1 with input := v, searchDebounceTimer := none }
    if jsTrim v = "" then
      { st2 with vm := { st2.vm with isSearchMode := false, searchResults := [] } }
    else { st2 with searchDebounceTimer := some (t + debounceDelay) }
  | .pressEnter t =>
    let st1 := fireIfDue loadResult st t
    doSearch loadResult { st1 with searchDebounceTimer := none }
  | .timePass t => fireIfDue loadResult st t

def runDeb (loadResult : List Voucher) (st : DebState) (evs : List DebEvent) : DebState :=
  evs.foldl (debStep loadResult) st

def keyEv (p : String × Nat) : DebEvent := DebEvent.keyInput p.1 p.2

theorem keysRunAux (lr : List Voucher) :
    ∀ (ks : List (String × Nat)) (k : String × Nat) (st : DebState),
      st.searchDebounceTimer = some (k.2 + debounceDelay) →
      st.input = k.1 →
      List.Chain (fun a b => a.2 < b.2 ∧ b.2 < a.2 + debounceDelay) k ks →
      (∀ p ∈ ks, jsTrim p.1 ≠ "") →
      runDeb lr st (ks.map keyEv)
        = { st with input := (ks.getLastD k).1,
                    searchDebounceTimer := some ((ks.getLastD k).2 + debounceDelay) } := by
  intro ks
  induction ks with
  | nil =>
    intro k st ht hi _ _
    show st = _
    rw [List.getLastD, ← hi, ← ht]
  | cons k2 rest ih =>
    intro k st ht hi hchain hne
    obtain ⟨⟨hlt, hgap⟩, hchain2⟩ := List.chain_cons.mp hchain
    have hne2 : jsTrim k2.1 ≠ "" := hne k2 (List.mem_cons_self _ _)
    have hnofire : fireIfDue lr st k2.2 = st := by
      simp only [fireIfDue, ht]
      rw [if_neg (show ¬(k.2 + debounceDelay ≤ k2.2) from by omega)]
    have hstep : debStep lr st (keyEv k2)
        = { st with input := k2.1, searchDebounceTimer := some (k2.2 + debounceDelay) } := by
      simp only [debStep, keyEv, hnofire, hne2, if_false]
    show runDeb lr (debStep lr st (keyEv k2)) (rest.map keyEv) = _
    rw [hstep,
      ih k2 { st with input := k2.1, searchDebounceTimer := some (k2.2 + debounceDelay) } rfl rfl
        hchain2 (fun p hp => hne p (List.mem_cons_of_mem _ hp)),
      List.getLastD_cons]

theorem fireIfDue_of_not_due (lr : List Voucher) (st : DebState) (t : Nat)
    (hlt : ∀ d, st.searchDebounceTimer = some d → t < d) : fireIfDue lr st t = st := by
  cases hts : st.searchDebounceTimer with
  | none => simp [fireIfDue, hts]
  | some d =>
    simp only [fireIfDue, hts]
    rw [if_neg (show ¬ d ≤ t from by have := hlt d hts; omega)]

/-- C6: (i) a burst of keystrokes with nonempty values, each arriving
within the debounce delay of the previous one, issues exactly one query
once the delay elapses after the last keystroke — with the input value
present when the timer fires (the last keystroke's value, trimmed) — and
leaves no pending timer; (ii) pressing Enter before a pending deadline
cancels the timer and queries immediately with the current value;
(iii) clearing the input to blank cancels any pending timer and
immediately reverts to the no-active-filter state (search mode off, empty
results) without issuing a query. -/
theorem claim_C6 (lr : List Voucher) :
    (∀ (k : String × Nat) (ks : List (String × Nat)) (st : DebState),
        st.searchDebounceTimer = none →
        jsTrim k.1 ≠ "" →
        (∀ p ∈ ks, jsTrim p.1 ≠ "") →
        List.Chain (fun a b => a.2 < b.2 ∧ b.2 < a.2 + debounceDelay) k ks →
        (runDeb lr st (((k :: ks).map keyEv)
              ++ [DebEvent.timePass ((ks.getLastD k).2 + debounceDelay)])).queries
          = st.queries ++ [jsTrim (ks.getLastD k).1]
        ∧ (runDeb lr st (((k :: ks).map keyEv)
              ++ [DebEvent.timePass ((ks.getLastD k).2 + debounceDelay)])).searchDebounceTimer = none)
    ∧ (∀ (st : DebState) (t : Nat),
        (∀ d, st.searchDebounceTimer = some d → t < d) →
        jsTrim st.input ≠ "" →
        (runDeb lr st [DebEvent.pressEnter t]).queries = st.queries ++ [jsTrim st.input]
        ∧ (runDeb lr st [DebEvent.pressEnter t]).searchDebounceTimer = none)
    ∧ (∀ (st : DebState) (v : String) (t : Nat),
        (∀ d, st.searchDebounceTimer = some d → t < d) →
        jsTrim v = "" →
        (runDeb lr st [DebEvent.keyInput v t]).queries = st.queries
        ∧ (runDeb lr st [DebEvent.keyInput v t]).searchDebounceTimer = none
        ∧ (runDeb lr st [DebEvent.keyInput v t]).vm.isSearchMode = false
        ∧ (runDeb lr st [DebEvent.keyInput v t]).vm.searchResults = []) := by
  refine ⟨?_, ?_, ?_⟩
  · intro k ks st ht hk hks hchain
    have hstep1 : debStep lr st (keyEv k)
        = { st with input := k.1, searchDebounceTimer := some (k.2 + debounceDelay) } := by
      simp only [debStep, keyEv, fireIfDue, ht, hk, if_false]
    have hmid := keysRunAux lr ks k
      { st with input := k.1, searchDebounceTimer := some (k.2 + debounceDelay) } rfl rfl hchain hks
    rw [runDeb] at hmid
    have hlastne : jsTrim (ks.getLastD k).1 ≠ "" := by
      rcases List.mem_cons.mp (List.getLastD_mem_cons ks k) with hm | hm
      · rw [hm]
        exact hk
      · exact hks _ hm
    have hrun : runDeb lr st (((k :: ks).map keyEv) ++ [DebEvent.timePass ((ks.getLastD k).2 + debounceDelay)]) = debStep lr { st with input := (ks.getLastD k).1, searchDebounceTimer := some ((ks.getLastD k).2 + debounceDelay) } (DebEvent.timePass ((ks.getLastD k).2 + debounceDelay)) := by
      show List.foldl (debStep lr) (debStep lr st (keyEv k))
          ((ks.map keyEv) ++ [DebEvent.timePass ((ks.getLastD k).2 + debounceDelay)]) = _
      rw [hstep1, List.foldl_append, hmid]
      rfl
    have hfinal : debStep lr { st with input := (ks.getLastD k).1, searchDebounceTimer := some ((ks.getLastD k).2 + debounceDelay) } (DebEvent.timePass ((ks.getLastD k).2 + debounceDelay)) = { st with input := (ks.getLastD k).1, searchDebounceTimer := none, queries := st.queries ++ [jsTrim (ks.getLastD k).1], vm := performVoucherSearch st.vm (ks.getLastD k).1 lr } := by
      simp only [debStep, fireIfDue]
      rw [if_pos (le_refl _)]
      simp only [doSearch, hlastne, if_false]
    rw [hrun, hfinal]
    exact ⟨rfl, rfl⟩
  · intro st t hlt hne
    have hnofire := fireIfDue_of_not_due lr st t hlt
    have hrun : runDeb lr st [DebEvent.pressEnter t] = { st with searchDebounceTimer := none, queries := st.queries ++ [jsTrim st.input], vm := performVoucherSearch st.vm st.input lr } := by
      show debStep lr st (DebEvent.pressEnter t) = _
      simp only [debStep, hnofire, doSearch, hne, if_false]
    rw [hrun]
    exact ⟨rfl, rfl⟩
  · intro st v t hlt hv
    have hnofire := fireIfDue_of_not_due lr st t hlt
    have hrun : runDeb lr st [DebEvent.keyInput v t] = { st with input := v, searchDebounceTimer := none, vm := { st.vm with isSearchMode := false, searchResults := [] } } := by
      show debStep lr st (DebEvent.keyInput v t) = _
      simp [debStep, hnofire, hv]
    rw [hrun]
    exact ⟨rfl, rfl, rfl, rfl⟩

/-- C6 witness: a two-keystroke burst 100 ms apart issues exactly the one
query "a77" after the delay; Enter at t = 350 before a deadline of 400
queries "q7" immediately; clearing the input turns search mode off. -/
theorem claim_C6_witness :
    (runDeb [] ⟨none, "", [], ⟨some [], [], false⟩⟩
        ((([("a7", 0), ("a77", 100)] : List (String × Nat)).map keyEv)
          ++ [DebEvent.timePass ((([("a77", 100)] : List (String × Nat)).getLastD
                ("a7", 0)).2 + debounceDelay)])).queries
      = [] ++ [jsTrim "a77"]
    ∧ (runDeb [] ⟨some 400, "q7", [], ⟨some [], [], false⟩⟩
        [DebEvent.pressEnter 350]).queries = [] ++ [jsTrim "q7"]
    ∧ (runDeb [] ⟨some 400, "q7", ["x"], ⟨some [], [vMatch], true⟩⟩
        [DebEvent.keyInput "" 100]).vm.isSearchMode = false := by
  refine ⟨?_, ?_, ?_⟩
  · exact ((claim_C6 []).1 ("a7", 0) [("a77", 100)] ⟨none, "", [], ⟨some [], [], false⟩⟩
      rfl (by decide) (by decide)
      (List.chain_cons.mpr ⟨⟨by decide, by decide⟩, List.Chain.nil⟩)).1
  · exact ((claim_C6 []).2.1 ⟨some 400, "q7", [], ⟨some [], [], false⟩⟩ 350
      (fun d hd => by cases hd; omega) (by decide)).1
  · exact ((claim_C6 []).2.2 ⟨some 400, "q7", ["x"], ⟨some [], [vMatch], true⟩⟩ "" 100
      (fun d hd => by cases hd; omega) (by decide)).2.2.1
